import Mathlib

/-!
Shallow Lean embedding of the retrieval core of the RagDemo backend
(`backend/app/utils/`): the in-memory BM25 keyword index
(`bm25_index.py`), hybrid BM25+vector search with reciprocal rank
fusion (`hybrid_search.py`), and the character-bounded text chunker
(`text_chunker.py`).

Modelling conventions, used throughout:
* Python `float` arithmetic is modelled by exact rational arithmetic (`ℚ`).
* Python `dict`s holding chunk data are modelled as insertion-ordered
  association lists (`Dict` below); `d[k] = v` replaces the value in place
  when the key exists and appends otherwise, exactly as Python dicts do.
* Python's builtin `sorted` is a stable sort; it is modelled by
  `List.insertionSort`, which is stable.
* External collaborators that are not part of this repository are passed
  in as function arguments: the `rank_bm25.BM25Okapi` scorer (`scorer`),
  the Pinecone vector-search call (its outcome `vecResult`), Python's
  builtin `hash` (`pyHash`) and `datetime.now()` (`now`).
* Character predicates (`\s`, `\w`, `str.strip`, `str.lower`) are modelled
  on the ASCII range, which covers every input appearing in the claims.
-/

namespace RagDemo

/-! ### Python string primitives -/

/-- Python whitespace (`\s`, `str.split()`, `str.strip()`), ASCII range:
space, tab, newline, carriage return, vertical tab, form feed. -/
def isPySpace (c : Char) : Bool :=
  c = ' ' ∨ c = '\t' ∨ c = '\n' ∨ c = '\x0d' ∨ c = '\x0b' ∨ c = '\x0c'

/-- Python word characters (`\w`), ASCII range: alphanumeric or underscore. -/
def isWordChar (c : Char) : Bool :=
  c.isAlphanum ∨ c = '_'

/-- Python `str.strip()`: remove leading and trailing whitespace. -/
def pyStrip (l : List Char) : List Char :=
  ((l.dropWhile isPySpace).reverse.dropWhile isPySpace).reverse

/-- `str.strip()` on `String`. -/
def pyStripS (s : String) : String :=
  String.mk (pyStrip s.toList)

/-- Helper for `str.split()`: accumulate the current word (reversed) and the
words seen so far (reversed), consuming the characters one by one. -/
def splitWsGo : List Char → List (List Char) → List Char → List (List Char)
  | cur, acc, [] => if cur.isEmpty then acc.reverse else (cur.reverse :: acc).reverse
  | cur, acc, c :: rest =>
    if isPySpace c then
      if cur.isEmpty then splitWsGo [] acc rest
      else splitWsGo [] (cur.reverse :: acc) rest
    else splitWsGo (c :: cur) acc rest

/-- Python `str.split()` with no argument: split on whitespace runs,
discarding empty pieces. -/
def splitWs (l : List Char) : List (List Char) :=
  splitWsGo [] [] l

/-- `BM25Index._tokenize`: lowercase, replace every character that is neither
a word character nor whitespace by a space (`re.sub(r'[^\w\s]', ' ', text)`),
split on whitespace and drop empty tokens. -/
def tokenize (text : String) : List String :=
  let lowered := text.toList.map Char.toLower
  let subbed := lowered.map (fun c => if isWordChar c ∨ isPySpace c then c else ' ')
  (splitWs subbed).map String.mk

/-! ### Python dict values for chunk data -/

/-- Values stored in chunk dictionaries. `details` models the one nested
dictionary the code builds, `ranking_details` in
`HybridSearch._reciprocal_rank_fusion`, with fields
`bm25_rank` (None when absent), `vector_rank` (None when absent),
`bm25_rrf` and `vector_rrf`. -/
inductive Val where
  | str (s : String)
  | int (n : Int)
  | rat (q : ℚ)
  | bool (b : Bool)
  | none
  | details (bm25Rank : Option ℕ) (vectorRank : Option ℕ) (bm25Rrf : ℚ) (vectorRrf : ℚ)
deriving DecidableEq

/-- A Python dict from string keys to chunk values, as an insertion-ordered
association list with distinct keys. -/
abbrev Dict : Type := List (String × Val)

/-- Association-list lookup (`d[k]` / `k in d`), generic in the value type. -/
def aget {β : Type} : List (String × β) → String → Option β
  | [], _ => Option.none
  | (k₀, v₀) :: rest, k => if k₀ = k then some v₀ else aget rest k

/-- Association-list update (`d[k] = v`): replace in place when the key is
present, append otherwise — Python dict assignment semantics. -/
def aset {β : Type} : List (String × β) → String → β → List (String × β)
  | [], k, v => [(k, v)]
  | (k₀, v₀) :: rest, k, v =>
    if k₀ = k then (k, v) :: rest else (k₀, v₀) :: aset rest k v

/-- Dict lookup. -/
def dget (d : Dict) (k : String) : Option Val := aget d k

/-- Dict assignment. -/
def dset (d : Dict) (k : String) (v : Val) : Dict := aset d k v

/-- Python `str(value)` for the values that can appear in the id fields read
by `HybridSearch._get_chunk_id`. The `rat` and `details` cases never occur
there in this repository's data. -/
def pyValStr : Val → String
  | .str s => s
  | .int n => toString n
  | .rat q => toString q
  | .bool b => if b then "True" else "False"
  | .none => "None"
  | .details _ _ _ _ => "ranking_details"

/-- The `text` field of a chunk, when it is a string (every chunk built by
this repository stores a string there; a non-string would make the Python
code raise inside its `try` blocks). -/
def valText : Val → Option String
  | .str s => some s
  | _ => Option.none

/-! ### `bm25_index.py`: the in-memory BM25 index -/

/-- One entry of `BM25Index._indexes`: the stored `BM25Okapi` object is
fully determined by `tokenized_corpus`, so only the corpus is stored and the
scorer is supplied at search time. -/
structure IndexData where
  tokenizedCorpus : List (List String)
  chunks : List Dict
  createdAt : ℕ
  numChunks : ℕ
deriving DecidableEq

/-- `BM25Index._indexes`: the per-session registry, a Python dict keyed by
session id. -/
abbrev BM25State : Type := List (String × IndexData)

/-- `BM25Index.build_index(session_id, chunks)`. Returns the success flag and
the updated registry. `now` models `datetime.now()`. An empty chunk list
returns `False` without touching the registry; a chunk whose `text` field is
not a string would raise in `_tokenize`, which the `except` handler turns
into `False` with the registry untouched. -/
def buildIndex (now : ℕ) (s : BM25State) (sessionId : String) (chunks : List Dict) :
    Bool × BM25State :=
  if chunks.isEmpty then (false, s)
  else
    match chunks.mapM (fun c => valText ((dget c "text").getD (.str ""))) with
    | Option.none => (false, s)
    | some texts =>
      let tokenizedCorpus := texts.map tokenize
      (true, aset s sessionId ⟨tokenizedCorpus, chunks, now, chunks.length⟩)

/-- Python `sorted(l, key=key, reverse=True)`: a stable descending sort.
`List.insertionSort` with this relation is stable in exactly the same way. -/
def pySortedDesc {α : Type} (key : α → ℚ) (l : List α) : List α :=
  List.insertionSort (fun a b => key b ≤ key a) l

/-- `BM25Index.search`, lines 121-126: indices of the top-k scores,
`sorted(range(len(scores)), key=lambda i: scores[i], reverse=True)[:top_k]`.
Every generated index is below `scores.length`, so the `getD` default is
never read. -/
def bm25TopIndices (scores : List ℚ) (topk : ℕ) : List ℕ :=
  (pySortedDesc (fun i => scores.getD i 0) (List.range scores.length)).take topk

/-- `BM25Index.search`, lines 129-136: annotate a copy of the stored chunk
with its score and the retrieval method. -/
def annotateBm25 (c : Dict) (score : ℚ) : Dict :=
  dset (dset c "bm25_score" (.rat score)) "search_method" (.str "bm25")

/-- `BM25Index.search`, result-building loop: `chunks[idx]` raises
`IndexError` past the end (caught by the surrounding `except`, which
returns `[]`), hence the `Option`. -/
def buildResults (chunks : List Dict) (scores : List ℚ) : List ℕ → Option (List Dict)
  | [] => some []
  | idx :: rest =>
    match chunks.get? idx with
    | Option.none => Option.none
    | some c =>
      match buildResults chunks scores rest with
      | Option.none => Option.none
      | some out => some (annotateBm25 c (scores.getD idx 0) :: out)

/-- `BM25Index.search(session_id, query, top_k)`. Returns the result list
and the registry after the call (the method only reads the registry, so it
is returned unchanged). `scorer` models `BM25Okapi.get_scores`. A missing
session, an empty tokenized query, or an `IndexError` while building the
results gives `[]`. -/
def searchBM25 (scorer : List (List String) → List String → List ℚ)
    (s : BM25State) (sessionId query : String) (topk : ℕ) : List Dict × BM25State :=
  match aget s sessionId with
  | Option.none => ([], s)
  | some data =>
    let tokenizedQuery := tokenize query
    if tokenizedQuery.isEmpty then ([], s)
    else
      let scores := scorer data.tokenizedCorpus tokenizedQuery
      match buildResults data.chunks scores (bm25TopIndices scores topk) with
      | Option.none => ([], s)
      | some results => (results, s)

/-! ### `hybrid_search.py`: BM25 + vector search with reciprocal rank fusion -/

/-- `HybridSearch.__init__` configuration. Defaults: `bm25_weight=0.4`,
`vector_weight=0.6`, `rrf_k=60`. -/
structure HybridSearch where
  bm25Weight : ℚ := 2/5
  vectorWeight : ℚ := 3/5
  rrfK : ℕ := 60
deriving DecidableEq

/-- `1 / (self.rrf_k + rank)`. -/
def rrfScore (k rank : ℕ) : ℚ := 1 / ((k : ℚ) + rank)

/-- The BM25 contribution `rrf_score * self.bm25_weight` that
`_reciprocal_rank_fusion` assigns for keyword rank `rank`. -/
def bm25Contribution (hs : HybridSearch) (rank : ℕ) : ℚ :=
  rrfScore hs.rrfK rank * hs.bm25Weight

/-- The vector contribution `rrf_score * self.vector_weight` that
`_reciprocal_rank_fusion` assigns for vector rank `rank`. -/
def vectorContribution (hs : HybridSearch) (rank : ℕ) : ℚ :=
  rrfScore hs.rrfK rank * hs.vectorWeight

/-- One value of `fusion_map` in `_reciprocal_rank_fusion`: the inner dict
with keys `chunk`, `bm25_rank` (absent for vector-only entries, hence
`Option`), `vector_rank` (absent for BM25-only entries), `bm25_rrf`,
`vector_rrf`, `total_score`. -/
structure FEntry where
  chunk : Dict
  bm25Rank : Option ℕ
  vectorRank : Option ℕ
  bm25Rrf : ℚ
  vectorRrf : ℚ
  totalScore : ℚ
deriving DecidableEq

/-- `HybridSearch._get_chunk_id`: prefer `id`, then `doc_id`/`chunk_id`,
falling back to `str(hash(text))`; `pyHash` models Python's builtin `hash`. -/
def getChunkId (pyHash : String → Int) (chunk : Dict) : String :=
  match dget chunk "id" with
  | some v => pyValStr v
  | Option.none =>
    match dget chunk "chunk_id" with
    | some cid =>
      pyValStr ((dget chunk "doc_id").getD (.str "")) ++ "_" ++ pyValStr cid
    | Option.none =>
      toString (pyHash (pyValStr ((dget chunk "text").getD (.str ""))))

/-- First loop of `_reciprocal_rank_fusion` (lines 124-135): insert every
BM25 result into the fusion map, `enumerate(bm25_results, start=1)`. -/
def processBm25 (hs : HybridSearch) (pyHash : String → Int) :
    List (String × FEntry) → ℕ → List Dict → List (String × FEntry)
  | m, _, [] => m
  | m, rank, result :: rest =>
    let cid := getChunkId pyHash result
    let rrf := rrfScore hs.rrfK rank
    processBm25 hs pyHash
      (aset m cid ⟨result, some rank, Option.none, rrf, 0, rrf * hs.bm25Weight⟩)
      (rank + 1) rest

/-- Second loop of `_reciprocal_rank_fusion` (lines 137-155): merge every
vector result into the fusion map, adding the vector contribution to entries
already present and appending new vector-only entries. -/
def processVector (hs : HybridSearch) (pyHash : String → Int) :
    List (String × FEntry) → ℕ → List Dict → List (String × FEntry)
  | m, _, [] => m
  | m, rank, result :: rest =>
    let cid := getChunkId pyHash result
    let rrf := rrfScore hs.rrfK rank
    let m' :=
      match aget m cid with
      | some e =>
        aset m cid
          { e with
            vectorRank := some rank
            vectorRrf := rrf
            totalScore := e.totalScore + rrf * hs.vectorWeight }
      | Option.none =>
        aset m cid ⟨result, Option.none, some rank, 0, rrf, rrf * hs.vectorWeight⟩
    processVector hs pyHash m' (rank + 1) rest

/-- The full fusion map of `_reciprocal_rank_fusion`, in insertion order:
BM25 results first (in keyword-rank order), then the vector-only results
(in vector-rank order). -/
def fusionEntries (hs : HybridSearch) (pyHash : String → Int)
    (bm25Results vectorResults : List Dict) : List (String × FEntry) :=
  processVector hs pyHash (processBm25 hs pyHash [] 1 bm25Results) 1 vectorResults

/-- Lines 164-179 of `_reciprocal_rank_fusion`: copy the chunk and annotate
it with `hybrid_score`, `search_method = 'hybrid'` and `ranking_details`. -/
def finalizeEntry (item : FEntry) : Dict :=
  let chunk := dset item.chunk "hybrid_score" (.rat item.totalScore)
  let chunk := dset chunk "search_method" (.str "hybrid")
  dset chunk "ranking_details"
    (.details item.bm25Rank item.vectorRank item.bm25Rrf item.vectorRrf)

/-- `HybridSearch._reciprocal_rank_fusion(bm25_results, vector_results,
top_k)`: build the fusion map, stably sort its values by `total_score`
descending, truncate to `top_k`, and annotate. -/
def reciprocalRankFusion (hs : HybridSearch) (pyHash : String → Int)
    (bm25Results vectorResults : List Dict) (topk : ℕ) : List Dict :=
  let entries := (fusionEntries hs pyHash bm25Results vectorResults).map Prod.snd
  let sortedEntries := (pySortedDesc (fun e => e.totalScore) entries).take topk
  sortedEntries.map finalizeEntry

/-- `HybridSearch._vector_search`: the Pinecone collaborator call is modelled
by its outcome `vecResult`; on success every result is tagged with
`search_method = 'vector'` and `vector_score = result.get('score', 0)`, and
any failure is caught and turned into `[]` (lines 105-107). -/
def vectorSearch (vecResult : Except String (List Dict)) : List Dict :=
  match vecResult with
  | .error _ => []
  | .ok results =>
    results.map (fun r =>
      dset (dset r "search_method" (.str "vector")) "vector_score"
        ((dget r "score").getD (.int 0)))

/-- `HybridSearch.search(session_id, query, top_k)`: BM25 results with
`top_k=10`, vector results (already truncated to 10 by the collaborator
call), then fusion. The method's own `try`/`except` fallback is dead in
this model: `search_bm25` and `_vector_search` each catch their own
exceptions and return lists. -/
def hybridSearchRun (hs : HybridSearch) (pyHash : String → Int)
    (scorer : List (List String) → List String → List ℚ)
    (s : BM25State) (vecResult : Except String (List Dict))
    (sessionId query : String) (topk : ℕ) : List Dict :=
  let bm25Results := (searchBM25 scorer s sessionId query 10).1
  let vectorResults := vectorSearch vecResult
  reciprocalRankFusion hs pyHash bm25Results vectorResults topk

/-! ### `text_chunker.py`: the character-bounded chunker -/

/-- `SemanticChunker.__init__` in `text_chunker.py`. Defaults:
`chunk_size=500`, `chunk_overlap=50`, `min_chunk_size=100`. -/
structure ChunkerCfg where
  chunkSize : ℕ := 500
  chunkOverlap : ℕ := 50
  minChunkSize : ℕ := 100
deriving DecidableEq

/-- Metadata values attached to chunks by `chunk_pdf_pages`:
`image_types` is a list of possibly-`None` strings (`img.get('type')`),
`imgs` the list of image-description dicts
`(filename, type, description)`. -/
inductive MVal where
  | s (x : String)
  | n (x : ℤ)
  | b (x : Bool)
  | strList (x : List (Option String))
  | imgs (x : List (String × Option String × String))
deriving DecidableEq

/-- The optional metadata dict passed to `chunk_text` / `_create_chunk`
(`None` is the empty list). -/
abbrev Metadata : Type := List (String × MVal)

/-- A chunk dict built by `text_chunker.py`: keys `text`, `length`,
`start_pos`, the optional `chunk_id` (assigned after the fact for
character-based chunking, at creation for page-wise chunking), and the
metadata keys merged in by `chunk.update(metadata)`. -/
structure Chunk where
  text : String
  length : ℕ
  startPos : ℤ
  chunkId : Option ℕ
  metadata : Metadata
deriving DecidableEq

/-- `SemanticChunker._create_chunk(text, metadata, start_pos, length)`:
note the Python function stores `len(text)` under `length` and ignores its
`length` argument. -/
def createChunk (text : String) (metadata : Metadata) (startPos : ℤ) (_length : ℕ) : Chunk :=
  ⟨text, text.length, startPos, Option.none, metadata⟩

/-- Python slice `s[-n:]` (used with the guard `len(s) > n`): for `n = 0`
the slice is the whole string. -/
def pySliceLast (s : String) (n : ℕ) : String :=
  if n = 0 then s else String.mk (s.toList.drop (s.toList.length - n))

/-- The largest `m` with `m ≤ bound` and `rest[m] = '\n'` — the backtracking
step of the greedy `\s*` in the paragraph separator `\n\s*\n`. -/
def findLastNewline (rest : List Char) : ℕ → Option ℕ
  | 0 => if rest.get? 0 = some '\n' then some 0 else Option.none
  | m + 1 =>
    if rest.get? (m + 1) = some '\n' then some (m + 1) else findLastNewline rest m

/-- Try to match the regex `\n\s*\n` at the head of `cs`; on success return
the remainder after the match. The greedy `\s*` with backtracking makes the
match run from the leading `'\n'` to the last `'\n'` inside the maximal
whitespace run that follows it. -/
def paraSepMatch (cs : List Char) : Option (List Char) :=
  match cs with
  | '\n' :: rest =>
    let bound := (rest.takeWhile isPySpace).length
    match findLastNewline rest bound with
    | some m => some (rest.drop (m + 1))
    | Option.none => Option.none
  | _ => Option.none

/-- `re.split` driver: scan left to right, cutting a piece whenever `matcher`
fires; `fuel` (instantiated with `length + 1`) only makes the recursion
structural, every match consumes at least one character. -/
def splitRegexGo (matcher : List Char → Option (List Char)) :
    ℕ → List Char → List (List Char) → List Char → List (List Char)
  | 0, cur, acc, cs => ((cur.reverse ++ cs) :: acc).reverse
  | _ + 1, cur, acc, [] => (cur.reverse :: acc).reverse
  | fuel + 1, cur, acc, c :: rest =>
    match matcher (c :: rest) with
    | some rest' => splitRegexGo matcher fuel [] (cur.reverse :: acc) rest'
    | Option.none => splitRegexGo matcher fuel (c :: cur) acc rest

/-- `SemanticChunker._split_into_paragraphs`:
`re.split(r'\n\s*\n', text)`, then `[p.strip() for p in paragraphs if p.strip()]`. -/
def splitParagraphs (text : String) : List String :=
  let pieces := splitRegexGo paraSepMatch (text.toList.length + 1) [] [] text.toList
  ((pieces.map pyStrip).filter (fun p => ¬ p.isEmpty)).map String.mk

/-- Sentence-split driver for `re.split(r'(?<=[.!?])\s+', text)`: a separator
is a maximal whitespace run whose preceding character (`prev`) is `.`, `!`
or `?`. After a separator the lookbehind character is whitespace, recorded
as `' '`. -/
def splitSentGo : ℕ → Option Char → List Char → List (List Char) → List Char → List (List Char)
  | 0, _, cur, acc, cs => ((cur.reverse ++ cs) :: acc).reverse
  | _ + 1, _, cur, acc, [] => (cur.reverse :: acc).reverse
  | fuel + 1, prev, cur, acc, c :: rest =>
    if (prev = some '.' ∨ prev = some '!' ∨ prev = some '?') ∧ isPySpace c then
      splitSentGo fuel (some ' ') [] (cur.reverse :: acc) (rest.dropWhile isPySpace)
    else
      splitSentGo fuel (some c) (c :: cur) acc rest

/-- `SemanticChunker._split_into_sentences`:
`re.split(r'(?<=[.!?])\s+', text)`, then `[s.strip() for s in sentences if s.strip()]`. -/
def splitSentences (text : String) : List String :=
  let pieces := splitSentGo (text.toList.length + 1) Option.none [] [] text.toList
  ((pieces.map pyStrip).filter (fun p => ¬ p.isEmpty)).map String.mk

/-- Inner sentence loop of `chunk_text` (lines 80-93), for a paragraph larger
than `chunk_size`. State: chunks so far, `temp_chunk`, `current_chunk_start`. -/
def sentLoop (cfg : ChunkerCfg) (md : Metadata) :
    List Chunk → String → ℤ → List String → List Chunk × String × ℤ
  | chunks, temp, start, [] => (chunks, temp, start)
  | chunks, temp, start, sentence :: rest =>
    if temp.length + sentence.length ≤ cfg.chunkSize then
      sentLoop cfg md chunks (temp ++ sentence ++ " ") start rest
    else
      if temp ≠ "" then
        let chunks' := chunks ++ [createChunk (pyStripS temp) md start temp.length]
        let start' := start + (temp.length : ℤ) - (cfg.chunkOverlap : ℤ)
        sentLoop cfg md chunks' (sentence ++ " ") start' rest
      else
        sentLoop cfg md chunks (sentence ++ " ") start rest

/-- Paragraph loop of `chunk_text` (lines 63-116). State: chunks so far,
`current_chunk`, `current_chunk_start`. -/
def chunkLoop (cfg : ChunkerCfg) (md : Metadata) :
    List Chunk → String → ℤ → List String → List Chunk × String × ℤ
  | chunks, cur, start, [] => (chunks, cur, start)
  | chunks, cur, start, para :: rest =>
    if para.length > cfg.chunkSize then
      let chunks₁ :=
        if cur ≠ "" then chunks ++ [createChunk cur md start cur.length] else chunks
      let (chunks₂, temp, start₂) := sentLoop cfg md chunks₁ "" start (splitSentences para)
      let cur₂ := if temp ≠ "" then temp else ""
      chunkLoop cfg md chunks₂ cur₂ start₂ rest
    else
      if cur.length + para.length ≤ cfg.chunkSize then
        chunkLoop cfg md chunks (cur ++ para ++ "\n\n") start rest
      else
        if cur ≠ "" then
          let chunks' := chunks ++ [createChunk (pyStripS cur) md start cur.length]
          let overlapText :=
            if cur.length > cfg.chunkOverlap then pySliceLast cur cfg.chunkOverlap else cur
          let cur' := overlapText ++ para ++ "\n\n"
          let start' := start + (cur'.length : ℤ) - (overlapText.length : ℤ)
          chunkLoop cfg md chunks' cur' start' rest
        else
          chunkLoop cfg md chunks (para ++ "\n\n") start rest

/-- Final step of `chunk_text` (lines 118-127): the leftover accumulation is
appended only when it is nonempty and its stripped length reaches
`min_chunk_size`; otherwise it is discarded. -/
def chunkFinalize (cfg : ChunkerCfg) (md : Metadata)
    (chunks : List Chunk) (cur : String) (start : ℤ) : List Chunk :=
  if cur ≠ "" ∧ cfg.minChunkSize ≤ (pyStripS cur).length then
    chunks ++ [createChunk (pyStripS cur) md start cur.length]
  else chunks

/-- `SemanticChunker.chunk_text(text, metadata)` of `text_chunker.py`. -/
def chunkText (cfg : ChunkerCfg) (md : Metadata) (text : String) : List Chunk :=
  if text = "" ∨ (pyStrip text.toList).length = 0 then []
  else
    let paragraphs := splitParagraphs text
    let (chunks, cur, start) := chunkLoop cfg md [] "" 0 paragraphs
    chunkFinalize cfg md chunks cur start

/-! ### `text_chunker.py`: `chunk_pdf_pages` -/

/-- One image record of a page, as produced by the PDF extractor:
`type` is `img.get('type')`, `gemini_analysis` is present iff the image was
analysed. -/
structure ImageInfo where
  filename : String
  type : Option String
  geminiAnalysis : Option String
deriving DecidableEq

/-- One page of `extraction_result['pages']`. -/
structure Page where
  pageNum : ℕ
  text : String
  images : List ImageInfo
deriving DecidableEq

/-- The image-description entries added under the `images` metadata key
(lines 194-204 / 238-249): only images with a `gemini_analysis` key. -/
def imageDescriptions (images : List ImageInfo) : List (String × Option String × String) :=
  (images.filterMap (fun img =>
    img.geminiAnalysis.map (fun desc => (img.filename, img.type, desc))))

/-- The metadata keys shared by both strategies, plus the strategy tag and,
for page-wise chunking, the `pages` key. -/
def pageMetadataCore (docId : String) (page : Page) : Metadata :=
  [("doc_id", .s docId),
   ("page_num", .n page.pageNum),
   ("has_images", .b (decide (0 < page.images.length))),
   ("num_images", .n page.images.length),
   ("image_types", .strList (if page.images.isEmpty then [] else page.images.map (·.type)))]

/-- Append the optional `images` metadata key (lines 193-204 and 238-249). -/
def withImages (md : Metadata) (images : List ImageInfo) : Metadata :=
  if ¬ images.isEmpty ∧ ¬ (imageDescriptions images).isEmpty then
    md ++ [("images", .imgs (imageDescriptions images))]
  else md

/-- Page-wise overlap accumulation (lines 165-176): prepend the tail of each
of the previous `min(overlap_pages + 1, idx + 1) - 1` pages. `ovLen` models
`int(len(prev_text) * 0.3)`, a floating-point computation parametrised here
(the claims do not depend on its exact value). -/
def pageWiseOverlap (ovLen : ℕ → ℕ) (pages : List Page) (idx : ℕ)
    (text : String) (pageNum : ℕ) (overlapPages : ℕ) : String × List ℕ :=
  if 0 < overlapPages ∧ 0 < idx then
    (List.range' 1 (min (overlapPages + 1) (idx + 1) - 1)).foldl
      (fun (st : String × List ℕ) overlapIdx =>
        let prevPage := (pages.get? (idx - overlapIdx)).getD ⟨0, "", []⟩
        let prevText := prevPage.text
        let overlapLength := ovLen prevText.length
        let overlapText := if 0 < overlapLength then pySliceLast prevText overlapLength else ""
        if overlapText ≠ "" then
          ("[...from previous page]\n" ++ overlapText ++ "\n\n" ++ st.1,
           prevPage.pageNum :: st.2)
        else st)
      (text, [pageNum])
  else (text, [pageNum])

/-- One page-wise chunk (lines 155-215): the dict
`text/length/chunk_id/start_pos` merged with the page metadata, where
`pages` is the comma-joined list of covered page numbers. -/
def pageWiseChunk (ovLen : ℕ → ℕ) (docId : String) (pages : List Page)
    (overlapPages : ℕ) (idx : ℕ) (page : Page) : Chunk :=
  let (chunkText_, overlappedPages) :=
    pageWiseOverlap ovLen pages idx page.text page.pageNum overlapPages
  let pagesStr := String.intercalate "," (overlappedPages.map toString)
  let md :=
    withImages
      [("doc_id", .s docId),
       ("page_num", .n page.pageNum),
       ("pages", .s pagesStr),
       ("has_images", .b (decide (0 < page.images.length))),
       ("num_images", .n page.images.length),
       ("image_types", .strList (if page.images.isEmpty then [] else page.images.map (·.type))),
       ("chunk_strategy", .s "page_wise")]
      page.images
  ⟨chunkText_, chunkText_.length, 0, some idx, md⟩

/-- `SemanticChunker.chunk_pdf_pages(extraction_result, page_wise,
overlap_pages)`: one chunk per page when `page_wise`, otherwise
`chunk_text` on every page's text with per-page metadata and global chunk
ids assigned afterwards. `docId` is `extraction_result.get('doc_id',
'unknown')` already applied. -/
def chunkPdfPages (cfg : ChunkerCfg) (ovLen : ℕ → ℕ) (docId : String)
    (pages : List Page) (pageWise : Bool) (overlapPages : ℕ) : List Chunk :=
  if pageWise then
    pages.enum.map (fun p => pageWiseChunk ovLen docId pages overlapPages p.1 p.2)
  else
    let allChunks :=
      pages.flatMap (fun page =>
        chunkText cfg
          (withImages (pageMetadataCore docId page ++ [("chunk_strategy", .s "character_based")])
            page.images)
          page.text)
    allChunks.enum.map (fun p => { p.2 with chunkId := some p.1 })

/-! ### Helper lemmas: association lists -/

theorem aget_aset_self {β : Type} (m : List (String × β)) (k : String) (v : β) :
    aget (aset m k v) k = some v := by
  induction m with
  | nil => simp [aget, aset]
  | cons hd tl ih =>
    by_cases h : hd.1 = k
    · simp [aget, aset, h]
    · simp [aget, aset, h, ih]

theorem aget_aset_ne {β : Type} (m : List (String × β)) {k k₀ : String} (v : β)
    (h : k₀ ≠ k) : aget (aset m k₀ v) k = aget m k := by
  induction m with
  | nil => simp [aget, aset, h]
  | cons hd tl ih =>
    by_cases h₁ : hd.1 = k₀
    · simp [aget, aset, h₁, h]
    · by_cases h₂ : hd.1 = k <;> simp [aget, aset, h₁, h₂, ih, Ne.symm h]

theorem aset_eq_append {β : Type} (m : List (String × β)) (k : String) (v : β)
    (h : aget m k = Option.none) : aset m k v = m ++ [(k, v)] := by
  induction m with
  | nil => simp [aset]
  | cons hd tl ih =>
    by_cases h₁ : hd.1 = k
    · rw [aget, if_pos h₁] at h
      exact absurd h (by simp)
    · rw [aget, if_neg h₁] at h
      simp [aset, h₁, ih h]

theorem aget_append_left {β : Type} (m₁ m₂ : List (String × β)) (k : String)
    (h : aget m₁ k = Option.none) : aget (m₁ ++ m₂) k = aget m₂ k := by
  induction m₁ with
  | nil => simp
  | cons hd tl ih =>
    by_cases h₁ : hd.1 = k
    · rw [aget, if_pos h₁] at h
      exact absurd h (by simp)
    · rw [aget, if_neg h₁] at h
      rw [List.cons_append, aget, if_neg h₁]
      exact ih h

theorem dget_dset_self (d : Dict) (k : String) (v : Val) :
    dget (dset d k v) k = some v :=
  aget_aset_self d k v

theorem dget_dset_ne (d : Dict) {k k₀ : String} (v : Val) (h : k₀ ≠ k) :
    dget (dset d k₀ v) k = dget d k :=
  aget_aset_ne d v h

/-- The annotation loop of `BM25Index.search` touches only `bm25_score` and
`search_method`; every other key keeps its stored value. -/
theorem dget_annotateBm25 (c : Dict) (score : ℚ) {k : String}
    (h₁ : k ≠ "bm25_score") (h₂ : k ≠ "search_method") :
    dget (annotateBm25 c score) k = dget c k := by
  unfold annotateBm25
  rw [dget_dset_ne _ _ (fun h => h₂ h.symm), dget_dset_ne _ _ (fun h => h₁ h.symm)]

/-! ### Helper lemmas: the stable descending sort -/

theorem sorted_pySortedDesc {α : Type} (key : α → ℚ) (l : List α) :
    (pySortedDesc key l).Sorted (fun a b => key b ≤ key a) := by
  haveI : IsTotal α (fun a b => key b ≤ key a) := ⟨fun a b => le_total (key b) (key a)⟩
  haveI : IsTrans α (fun a b => key b ≤ key a) :=
    ⟨fun _ _ _ h₁ h₂ => le_trans h₂ h₁⟩
  exact List.sorted_insertionSort _ l

theorem orderedInsert_pairLex {α : Type} (key : α → ℚ) (rank : α → ℕ) (a : α) :
    ∀ l : List α, l.Sorted (fun x y => key y ≤ key x) →
      l.Pairwise (fun x y => key y < key x ∨ (key x = key y ∧ rank x < rank y)) →
      (∀ b ∈ l, rank a < rank b) →
      (l.orderedInsert (fun x y => key y ≤ key x) a).Pairwise
        (fun x y => key y < key x ∨ (key x = key y ∧ rank x < rank y))
  | [], _, _, _ => by simp [List.orderedInsert]
  | b :: t, hs, hp, ha => by
    rw [List.orderedInsert]
    by_cases hab : key b ≤ key a
    · rw [if_pos hab]
      refine List.pairwise_cons.mpr ⟨fun c hc => ?_, hp⟩
      have hcb : key c ≤ key a := by
        rcases List.mem_cons.mp hc with rfl | hct
        · exact hab
        · exact le_trans (List.rel_of_sorted_cons hs c hct) hab
      rcases lt_or_eq_of_le hcb with hlt | heq
      · exact Or.inl hlt
      · exact Or.inr ⟨heq.symm, ha c hc⟩
    · rw [if_neg hab]
      have hba : key a < key b := lt_of_not_le hab
      refine List.pairwise_cons.mpr ⟨fun c hc => ?_, ?_⟩
      · rcases (List.mem_orderedInsert _).mp hc with rfl | hct
        · exact Or.inl hba
        · exact (List.pairwise_cons.mp hp).1 c hct
      · exact orderedInsert_pairLex key rank a t hs.of_cons hp.of_cons
          (fun c hc => ha c (List.mem_cons_of_mem b hc))

/-- Stability of Python's `sorted(..., reverse=True)`: when the input is
strictly increasing along `rank`, the output is ordered by key descending
with ties in `rank` order. -/
theorem pySortedDesc_pairLex {α : Type} (key : α → ℚ) (rank : α → ℕ) :
    ∀ l : List α, l.Pairwise (fun x y => rank x < rank y) →
      (pySortedDesc key l).Pairwise
        (fun x y => key y < key x ∨ (key x = key y ∧ rank x < rank y))
  | [], _ => by simp [pySortedDesc, List.insertionSort]
  | a :: t, h => by
    have ih := pySortedDesc_pairLex key rank t (List.pairwise_cons.mp h).2
    have ha : ∀ b ∈ pySortedDesc key t, rank a < rank b := fun b hb =>
      (List.pairwise_cons.mp h).1 b ((List.mem_insertionSort _).mp hb)
    exact orderedInsert_pairLex key rank a (pySortedDesc key t)
      (sorted_pySortedDesc key t) ih ha

/-! ### Helper lemmas: enumeration -/

theorem mem_enumFrom_fst_le {α : Type} {x : ℕ × α} :
    ∀ (n : ℕ) (l : List α), x ∈ List.enumFrom n l → n ≤ x.1
  | _, [], h => absurd h (List.not_mem_nil x)
  | n, a :: t, h => by
    rcases List.mem_cons.mp h with rfl | ht
    · exact le_refl n
    · exact le_trans (Nat.le_succ n) (mem_enumFrom_fst_le (n + 1) t ht)

theorem pairwise_fst_enumFrom {α : Type} :
    ∀ (n : ℕ) (l : List α), (List.enumFrom n l).Pairwise (fun x y => x.1 < y.1)
  | _, [] => List.Pairwise.nil
  | n, a :: t => by
    refine List.pairwise_cons.mpr ⟨fun y hy => ?_, pairwise_fst_enumFrom (n + 1) t⟩
    exact lt_of_lt_of_le (Nat.lt_succ_self n) (mem_enumFrom_fst_le (n + 1) t hy)

theorem pairwise_fst_enum {α : Type} (l : List α) :
    l.enum.Pairwise (fun x y => x.1 < y.1) :=
  pairwise_fst_enumFrom 0 l

/-- The reciprocal rank score is positive for every actual rank (ranks are
produced by `enumerate(..., start=1)`, so they are at least 1). -/
theorem rrfScore_pos (k r : ℕ) (hr : 1 ≤ r) : 0 < rrfScore k r := by
  unfold rrfScore
  have h1 : (1 : ℚ) ≤ (r : ℚ) := by exact_mod_cast hr
  have hk : (0 : ℚ) ≤ (k : ℚ) := Nat.cast_nonneg k
  positivity

/-! ### Concrete fixtures used by witnesses and counterexamples -/

/-- A concrete stand-in for the external `BM25Okapi.get_scores` scorer:
per-document count of query tokens present. -/
def scorerCount (corpus : List (List String)) (q : List String) : List ℚ :=
  corpus.map (fun d => ((d.filter (fun t => q.contains t)).length : ℚ))

/-- Fixture chunk of session A. -/
def chunkA1 : Dict := [("id", .str "a1"), ("text", .str "red cat"), ("session_id", .str "A")]

/-- Fixture chunk of session A. -/
def chunkA2 : Dict := [("id", .str "a2"), ("text", .str "blue dog"), ("session_id", .str "A")]

/-- Fixture chunk of session B, sharing vocabulary with session A. -/
def chunkB1 : Dict := [("id", .str "b1"), ("text", .str "red cat too"), ("session_id", .str "B")]

/-- Registry after building the index of session A. -/
def stateA : BM25State := (buildIndex 0 [] "A" [chunkA1, chunkA2]).2

/-- Registry after building the indexes of sessions A and B. -/
def stateAB : BM25State := (buildIndex 1 stateA "B" [chunkB1]).2

/-! ### The claims -/

/-- C6: `BM25Index.build_index` called with an empty chunk list returns
`False` and leaves the registry exactly as it was: no entry is created and
a previously existing index of the same session is untouched. -/
theorem C6_build_empty_fails_without_touching_registry :
    ∀ (now : ℕ) (s : BM25State) (sid : String), buildIndex now s sid [] = (false, s) := by
  intro now s sid
  rfl

/-- C7: with positive weights, a chunk present in both lists at ranks
`r1` (keyword) and `r2` (vector) receives the fused score
`bm25Contribution r1 + vectorContribution r2`, strictly greater than the
score it would receive appearing in the keyword list only at rank `r1`,
and strictly greater than appearing in the vector list only at rank `r2`. -/
theorem C7_fusion_strictly_rewards_presence_in_both :
    ∀ (hs : HybridSearch) (r1 r2 : ℕ), 0 < hs.bm25Weight → 0 < hs.vectorWeight →
      1 ≤ r1 → 1 ≤ r2 →
      bm25Contribution hs r1 < bm25Contribution hs r1 + vectorContribution hs r2 ∧
      vectorContribution hs r2 < bm25Contribution hs r1 + vectorContribution hs r2 := by
  intro hs r1 r2 hw1 hw2 hr1 hr2
  have hb : 0 < bm25Contribution hs r1 := mul_pos (rrfScore_pos _ _ hr1) hw1
  have hv : 0 < vectorContribution hs r2 := mul_pos (rrfScore_pos _ _ hr2) hw2
  exact ⟨lt_add_of_pos_right _ hv, lt_add_of_pos_left _ hb⟩

/-- C7 witness: the default configuration, keyword rank 1 and vector rank 2. -/
theorem C7_witness :
    bm25Contribution {} 1 < bm25Contribution {} 1 + vectorContribution {} 2 ∧
    vectorContribution {} 2 < bm25Contribution {} 1 + vectorContribution {} 2 :=
  C7_fusion_strictly_rewards_presence_in_both {} 1 2
    (show (0 : ℚ) < 2 / 5 by norm_num) (show (0 : ℚ) < 3 / 5 by norm_num)
    (by decide) (by decide)

/-- C4 counterexample: with the keyword index absent and the vector
collaborator failing, `HybridSearch.search` returns `[]`, the very same
value it returns when both sources succeed and find zero matches; no
`RetrievalUnavailable` (which exists nowhere in the code) is raised. -/
theorem C4_counterexample :
    hybridSearchRun {} (fun _ => 0) scorerCount [] (.error "down") "A" "red cat" 5 = [] ∧
    hybridSearchRun {} (fun _ => 0) scorerCount stateA (.ok []) "A" "..!!" 5 = [] := by
  decide

/-- C4 amended: when the keyword index of the session is absent and the
vector collaborator call fails, hybrid search returns the empty list — the
same caller-visible outcome as zero matches; no terminal error is raised. -/
theorem C4_both_sources_down_returns_empty :
    ∀ (hs : HybridSearch) (pyHash : String → Int)
      (scorer : List (List String) → List String → List ℚ)
      (s : BM25State) (e sid q : String) (topk : ℕ),
      aget s sid = Option.none →
      hybridSearchRun hs pyHash scorer s (.error e) sid q topk = [] := by
  intro hs pyHash scorer s e sid q topk h
  unfold hybridSearchRun searchBM25
  rw [h]
  simp [vectorSearch, reciprocalRankFusion, fusionEntries, processBm25, processVector,
    pySortedDesc, List.insertionSort]

/-- C4 witness: the empty registry has no index for session B. -/
theorem C4_witness :
    hybridSearchRun {} (fun _ => 0) scorerCount [] (.error "down") "B" "query" 5 = [] :=
  C4_both_sources_down_returns_empty {} (fun _ => 0) scorerCount [] "down" "B" "query" 5 rfl

/-- C9 counterexample: a page whose text is empty yields one page-wise
chunk (with empty text), not zero chunks. -/
theorem C9_counterexample :
    (chunkPdfPages {} (fun n => 3 * n / 10) "doc" [⟨1, "", []⟩] true 0).map
      (fun c => c.text) = [""] := by
  decide

/-- C9 amended: an empty or whitespace-only page yields zero chunks only
under the character-based strategy; under the page-wise strategy every
page, empty ones included, yields exactly one chunk, so the output count
always equals the page count. -/
theorem C9_whitespace_pages_by_strategy :
    ∀ (cfg : ChunkerCfg) (ovLen : ℕ → ℕ) (docId : String) (pages : List Page)
      (overlapPages : ℕ) (md : Metadata) (page : Page),
      (chunkPdfPages cfg ovLen docId pages true overlapPages).length = pages.length ∧
      (pyStripS page.text = "" →
        chunkText cfg md page.text = [] ∧
        chunkPdfPages cfg ovLen docId [page] false overlapPages = []) := by
  intro cfg ovLen docId pages overlapPages md page
  constructor
  · simp [chunkPdfPages]
  · intro h
    have hl : pyStrip page.text.toList = [] := congrArg String.data h
    have hText : ∀ md₀ : Metadata, chunkText cfg md₀ page.text = [] := by
      intro md₀
      unfold chunkText
      rw [if_pos (Or.inr (by rw [hl]; rfl))]
    refine ⟨hText md, ?_⟩
    simp [chunkPdfPages, hText]

/-- C9 witness: a single whitespace-only page. -/
theorem C9_witness :
    ((chunkPdfPages {} (fun n => 3 * n / 10) "doc" [⟨1, "  ", []⟩] true 2).length =
      [(⟨1, "  ", []⟩ : Page)].length) ∧
    (chunkText {} [] "  " = [] ∧
      chunkPdfPages {} (fun n => 3 * n / 10) "doc" [⟨1, "  ", []⟩] false 2 = []) :=
  ⟨(C9_whitespace_pages_by_strategy {} (fun n => 3 * n / 10) "doc" [⟨1, "  ", []⟩] 2 []
      ⟨1, "  ", []⟩).1,
   (C9_whitespace_pages_by_strategy {} (fun n => 3 * n / 10) "doc" [⟨1, "  ", []⟩] 2 []
      ⟨1, "  ", []⟩).2 (by decide)⟩

/-- C5: the top indices of `BM25Index.search` are ordered by BM25 score
descending, and any two positions with equal score keep ascending corpus
position (the chunk id assigned at build time): the stable sort breaks
ties by lower index first. -/
theorem C5_bm25_ranking_score_desc_then_position :
    ∀ (scores : List ℚ) (topk : ℕ),
      (bm25TopIndices scores topk).Pairwise
        (fun i j => scores.getD j 0 < scores.getD i 0 ∨
          (scores.getD i 0 = scores.getD j 0 ∧ i < j)) := by
  intro scores topk
  have h := pySortedDesc_pairLex (fun i => scores.getD i 0) id
    (List.range scores.length) (by simpa using List.pairwise_lt_range scores.length)
  exact h.sublist (List.take_sublist topk _)

/-- C1 counterexample: with weights `bm25_weight = 62`, `vector_weight = 1`
and the default `rrf_k = 60`, chunk A (keyword rank 1 only) and chunk B
(keyword rank 2 and vector rank 1) both fuse to `62/61`; the fused output
ranks A, found by only one signal, before B, found by both — and B's lower
vector presence or A's identity play no tie-breaking role. -/
theorem C1_counterexample :
    (reciprocalRankFusion ⟨62, 1, 60⟩ (fun _ => 0)
        [[("id", Val.str "A")], [("id", Val.str "B")]] [[("id", Val.str "B")]] 5).map
      (fun c => (dget c "id", dget c "hybrid_score", dget c "ranking_details")) =
    [(some (.str "A"), some (.rat (62 / 61)), some (.details (some 1) Option.none (1 / 61) 0)),
     (some (.str "B"), some (.rat (62 / 61)), some (.details (some 2) (some 1) (1 / 62) (1 / 61)))] := by
  norm_num [reciprocalRankFusion, fusionEntries, processBm25, processVector, rrfScore,
    getChunkId, pyValStr, dget, dset, aget, aset, finalizeEntry, pySortedDesc,
    List.insertionSort, List.orderedInsert]
  simp

/-- C1 amended: the fused output is the fusion map's values stably sorted
by total score descending and truncated: at equal fused score, order is the
fusion map's insertion order — every chunk of the keyword list (in keyword
rank order) precedes every vector-only chunk (in vector rank order) —
regardless of presence in both lists or chunk id. Formally: tagging each
fusion entry with its map position, the sorted list is ordered by score
descending with ties in ascending map position, and mapping the tags away
yields exactly the fused output before annotation. -/
theorem C1_fusion_ties_follow_insertion_order :
    ∀ (hs : HybridSearch) (pyHash : String → Int) (b v : List Dict) (topk : ℕ),
      reciprocalRankFusion hs pyHash b v topk =
        (((pySortedDesc (fun e => e.2.totalScore)
            ((fusionEntries hs pyHash b v).map Prod.snd).enum).map Prod.snd).take topk).map
          finalizeEntry ∧
      (pySortedDesc (fun e => e.2.totalScore)
          ((fusionEntries hs pyHash b v).map Prod.snd).enum).Pairwise
        (fun x y => y.2.totalScore < x.2.totalScore ∨
          (x.2.totalScore = y.2.totalScore ∧ x.1 < y.1)) := by
  intro hs pyHash b v topk
  constructor
  · have hmap : (pySortedDesc (fun e : ℕ × FEntry => e.2.totalScore)
        ((fusionEntries hs pyHash b v).map Prod.snd).enum).map Prod.snd =
        pySortedDesc (fun e : FEntry => e.totalScore)
          ((fusionEntries hs pyHash b v).map Prod.snd) := by
      have h1 := List.map_insertionSort
        (fun a b : ℕ × FEntry => b.2.totalScore ≤ a.2.totalScore)
        (fun a b : FEntry => b.totalScore ≤ a.totalScore) Prod.snd
        ((fusionEntries hs pyHash b v).map Prod.snd).enum (fun _ _ _ _ => Iff.rfl)
      rw [List.enum_map_snd] at h1
      exact h1
    rw [hmap]
    rfl
  · exact pySortedDesc_pairLex (fun e : ℕ × FEntry => e.2.totalScore) Prod.fst _
      (pairwise_fst_enum _)

/-- Every result built by `_reciprocal_rank_fusion` carries
`search_method = 'hybrid'` (line 169). -/
theorem dget_finalizeEntry_search_method (e : FEntry) :
    dget (finalizeEntry e) "search_method" = some (.str "hybrid") := by
  unfold finalizeEntry
  rw [dget_dset_ne _ _ (by decide), dget_dset_self]

/-- The first fusion loop over BM25 results, started on a map whose keys are
all fresh and with pairwise-distinct chunk ids, appends one entry per result
in keyword-rank order. -/
theorem processBm25_append (hs : HybridSearch) (pyHash : String → Int) :
    ∀ (b : List Dict) (m : List (String × FEntry)) (rank : ℕ),
      (∀ r ∈ b, aget m (getChunkId pyHash r) = Option.none) →
      (b.map (getChunkId pyHash)).Nodup →
      processBm25 hs pyHash m rank b =
        m ++ (List.enumFrom rank b).map (fun p =>
          (getChunkId pyHash p.2,
           ⟨p.2, some p.1, Option.none, rrfScore hs.rrfK p.1, 0,
            rrfScore hs.rrfK p.1 * hs.bm25Weight⟩))
  | [], m, rank, _, _ => by simp [processBm25, List.enumFrom]
  | r :: rest, m, rank, hfresh, hnodup => by
    rw [processBm25]
    have hcons : getChunkId pyHash r ∉ rest.map (getChunkId pyHash) ∧
        (rest.map (getChunkId pyHash)).Nodup := List.nodup_cons.mp hnodup
    have hm : aset m (getChunkId pyHash r)
        ⟨r, some rank, Option.none, rrfScore hs.rrfK rank, 0,
         rrfScore hs.rrfK rank * hs.bm25Weight⟩ =
        m ++ [(getChunkId pyHash r,
          ⟨r, some rank, Option.none, rrfScore hs.rrfK rank, 0,
           rrfScore hs.rrfK rank * hs.bm25Weight⟩)] :=
      aset_eq_append _ _ _ (hfresh r (List.mem_cons_self r rest))
    rw [hm, processBm25_append hs pyHash rest _ (rank + 1) ?fresh ?nodup]
    · rw [List.append_assoc]
      rfl
    case fresh =>
      intro r' hr'
      rw [aget_append_left _ _ _ (hfresh r' (List.mem_cons_of_mem r hr'))]
      have hne : getChunkId pyHash r ≠ getChunkId pyHash r' := by
        intro h
        exact hcons.1 (h ▸ List.mem_map_of_mem (getChunkId pyHash) hr')
      simp [aget, hne]
    case nodup => exact hcons.2

/-- The per-rank keyword contribution is strictly antitone in the rank, for
a positive keyword weight. -/
theorem bm25Total_strict_anti (hs : HybridSearch) (hw : 0 < hs.bm25Weight)
    {i j : ℕ} (hi : 1 ≤ i) (hij : i < j) :
    rrfScore hs.rrfK j * hs.bm25Weight < rrfScore hs.rrfK i * hs.bm25Weight := by
  apply mul_lt_mul_of_pos_right ?_ hw
  unfold rrfScore
  apply one_div_lt_one_div_of_lt
  · have h1 : (1 : ℚ) ≤ (i : ℚ) := by exact_mod_cast hi
    have hk : (0 : ℚ) ≤ (hs.rrfK : ℚ) := Nat.cast_nonneg _
    linarith
  · have : (i : ℚ) < (j : ℚ) := by exact_mod_cast hij
    linarith

/-- Any result of `_reciprocal_rank_fusion` carries
`search_method = 'hybrid'`. -/
theorem searchMethod_mem_rrf (hs : HybridSearch) (pyHash : String → Int)
    (b v : List Dict) (topk : ℕ) (r : Dict)
    (hr : r ∈ reciprocalRankFusion hs pyHash b v topk) :
    dget r "search_method" = some (.str "hybrid") := by
  unfold reciprocalRankFusion at hr
  rcases List.mem_map.mp hr with ⟨e, _, rfl⟩
  exact dget_finalizeEntry_search_method e

/-- C2 amended: when the vector collaborator call fails, `HybridSearch.search`
returns exactly the keyword results in keyword-rank order (each fused score
being the keyword RRF contribution scaled by the keyword weight alone),
truncated to `top_k` — but every returned result carries
`search_method = 'hybrid'`, not a keyword-only marker. -/
theorem C2_vector_failure_degrades_to_weighted_keyword_order :
    ∀ (hs : HybridSearch) (pyHash : String → Int)
      (scorer : List (List String) → List String → List ℚ)
      (s : BM25State) (e sid q : String) (topk : ℕ),
      0 < hs.bm25Weight →
      ((searchBM25 scorer s sid q 10).1.map (getChunkId pyHash)).Nodup →
      hybridSearchRun hs pyHash scorer s (.error e) sid q topk =
        ((List.enumFrom 1 (searchBM25 scorer s sid q 10).1).map (fun p =>
          finalizeEntry ⟨p.2, some p.1, Option.none, rrfScore hs.rrfK p.1, 0,
            rrfScore hs.rrfK p.1 * hs.bm25Weight⟩)).take topk ∧
      ∀ r ∈ hybridSearchRun hs pyHash scorer s (.error e) sid q topk,
        dget r "search_method" = some (.str "hybrid") := by
  intro hs pyHash scorer s e sid q topk hw hnodup
  refine ⟨?_, fun r hr => searchMethod_mem_rrf hs pyHash _ _ topk r hr⟩
  show reciprocalRankFusion hs pyHash ((searchBM25 scorer s sid q 10).1) [] topk = _
  have hentries : fusionEntries hs pyHash ((searchBM25 scorer s sid q 10).1) [] =
      (List.enumFrom 1 (searchBM25 scorer s sid q 10).1).map (fun p =>
        (getChunkId pyHash p.2,
         ⟨p.2, some p.1, Option.none, rrfScore hs.rrfK p.1, 0,
          rrfScore hs.rrfK p.1 * hs.bm25Weight⟩)) := by
    show processVector hs pyHash (processBm25 hs pyHash [] 1 _) 1 [] = _
    rw [processVector]
    exact processBm25_append hs pyHash _ [] 1 (fun _ _ => rfl) hnodup
  have hentries2 : (fusionEntries hs pyHash ((searchBM25 scorer s sid q 10).1) []).map
      Prod.snd =
      (List.enumFrom 1 (searchBM25 scorer s sid q 10).1).map
        (fun p : ℕ × Dict =>
          (⟨p.2, some p.1, Option.none, rrfScore hs.rrfK p.1, 0,
            rrfScore hs.rrfK p.1 * hs.bm25Weight⟩ : FEntry)) := by
    rw [hentries, List.map_map]
    rfl
  have hsorted : ((List.enumFrom 1 (searchBM25 scorer s sid q 10).1).map
      (fun p : ℕ × Dict =>
        (⟨p.2, some p.1, Option.none, rrfScore hs.rrfK p.1, 0,
          rrfScore hs.rrfK p.1 * hs.bm25Weight⟩ : FEntry))).Pairwise
      (fun x y => y.totalScore ≤ x.totalScore) := by
    rw [List.pairwise_map]
    refine (pairwise_fst_enumFrom 1 _).imp_of_mem ?_
    intro p q hp _ hlt
    exact le_of_lt (bm25Total_strict_anti hs hw (mem_enumFrom_fst_le 1 _ hp) hlt)
  have heq : pySortedDesc (fun e : FEntry => e.totalScore)
      ((List.enumFrom 1 (searchBM25 scorer s sid q 10).1).map
        (fun p : ℕ × Dict =>
          (⟨p.2, some p.1, Option.none, rrfScore hs.rrfK p.1, 0,
            rrfScore hs.rrfK p.1 * hs.bm25Weight⟩ : FEntry))) =
      (List.enumFrom 1 (searchBM25 scorer s sid q 10).1).map
        (fun p : ℕ × Dict =>
          (⟨p.2, some p.1, Option.none, rrfScore hs.rrfK p.1, 0,
            rrfScore hs.rrfK p.1 * hs.bm25Weight⟩ : FEntry)) :=
    List.Sorted.insertionSort_eq hsorted
  unfold reciprocalRankFusion
  rw [hentries2]
  dsimp only
  rw [heq]
  rw [List.map_take, List.map_map]
  rfl

/-- Hybrid configuration with unit weights, used as a witness fixture. -/
def hsUnit : HybridSearch := ⟨1, 1, 60⟩

/-- C2 counterexample: with the vector collaborator failing, hybrid search
still answers a keyword-satisfiable query with the keyword results in
keyword order — but each result's `search_method` is `'hybrid'`, not a
keyword-only marker (the BM25 results' own `'bm25'` tag is overwritten at
line 169). -/
theorem C2_counterexample :
    (hybridSearchRun hsUnit (fun _ => 0) scorerCount stateA (.error "down") "A" "red" 3).map
      (fun c => (dget c "id", dget c "search_method")) =
    [(some (.str "a1"), some (.str "hybrid")), (some (.str "a2"), some (.str "hybrid"))] := by
  have hB : (searchBM25 scorerCount stateA "A" "red" 10).1 =
      [[("id", .str "a1"), ("text", .str "red cat"), ("session_id", .str "A"),
        ("bm25_score", .rat 1), ("search_method", .str "bm25")],
       [("id", .str "a2"), ("text", .str "blue dog"), ("session_id", .str "A"),
        ("bm25_score", .rat 0), ("search_method", .str "bm25")]] := by
    decide
  show (reciprocalRankFusion hsUnit (fun _ => 0)
      ((searchBM25 scorerCount stateA "A" "red" 10).1) [] 3).map
      (fun c => (dget c "id", dget c "search_method")) = _
  rw [hB]
  norm_num [reciprocalRankFusion, fusionEntries, processBm25, processVector, rrfScore,
    getChunkId, pyValStr, dget, dset, aget, aset, finalizeEntry, pySortedDesc,
    List.insertionSort, List.orderedInsert, hsUnit]
  simp

/-- C2 witness: unit weights, a failing vector collaborator, and the
session-A fixture index. -/
theorem C2_witness :
    hybridSearchRun hsUnit (fun _ => 0) scorerCount stateA (.error "x") "A" "red" 3 =
      ((List.enumFrom 1 (searchBM25 scorerCount stateA "A" "red" 10).1).map (fun p =>
        finalizeEntry ⟨p.2, some p.1, Option.none, rrfScore hsUnit.rrfK p.1, 0,
          rrfScore hsUnit.rrfK p.1 * hsUnit.bm25Weight⟩)).take 3 ∧
    ∀ r ∈ hybridSearchRun hsUnit (fun _ => 0) scorerCount stateA (.error "x") "A" "red" 3,
      dget r "search_method" = some (.str "hybrid") :=
  C2_vector_failure_degrades_to_weighted_keyword_order hsUnit (fun _ => 0) scorerCount
    stateA "x" "A" "red" 3 one_pos (by decide)

/-- Every dict in the output of the result-building loop of
`BM25Index.search` is an annotated copy of a stored chunk picked by its
index, at an index drawn from the requested index list. -/
theorem buildResults_mem :
    ∀ (idxs : List ℕ) (chunks : List Dict) (scores : List ℚ) (out : List Dict) (r : Dict),
      buildResults chunks scores idxs = some out → r ∈ out →
      ∃ idx, idx ∈ idxs ∧ ∃ c, chunks.get? idx = some c ∧
        r = annotateBm25 c (scores.getD idx 0)
  | [], _, _, out, r, h, hr => by
    rw [buildResults] at h
    injection h with h
    subst h
    exact absurd hr (List.not_mem_nil r)
  | idx :: rest, chunks, scores, out, r, h, hr => by
    rw [buildResults] at h
    cases hc : chunks.get? idx with
    | none => rw [hc] at h; exact absurd h (by simp)
    | some c =>
      rw [hc] at h
      cases hrest : buildResults chunks scores rest with
      | none => rw [hrest] at h; exact absurd h (by simp)
      | some out₀ =>
        rw [hrest] at h
        injection h with h
        subst h
        rcases List.mem_cons.mp hr with rfl | htail
        · exact ⟨idx, List.mem_cons_self idx rest, c, hc, rfl⟩
        · obtain ⟨idx₀, hidx₀, c₀, hc₀, hr₀⟩ :=
            buildResults_mem rest chunks scores out₀ r hrest htail
          exact ⟨idx₀, List.mem_cons_of_mem idx hidx₀, c₀, hc₀, hr₀⟩

/-- Every result of `BM25Index.search` is an annotated copy of a chunk
stored in the registry entry of the searched session. -/
theorem mem_searchBM25_results
    (scorer : List (List String) → List String → List ℚ)
    (s : BM25State) (sid q : String) (topk : ℕ) (r : Dict)
    (hr : r ∈ (searchBM25 scorer s sid q topk).1) :
    ∃ data, aget s sid = some data ∧ ∃ idx c, data.chunks.get? idx = some c ∧
      r = annotateBm25 c ((scorer data.tokenizedCorpus (tokenize q)).getD idx 0) := by
  unfold searchBM25 at hr
  cases ha : aget s sid with
  | none => rw [ha] at hr; exact absurd hr (by simp)
  | some data =>
    rw [ha] at hr
    dsimp only at hr
    by_cases ht : (tokenize q).isEmpty
    · rw [if_pos ht] at hr; exact absurd hr (by simp)
    · rw [if_neg ht] at hr
      cases hb : buildResults data.chunks (scorer data.tokenizedCorpus (tokenize q))
          (bm25TopIndices (scorer data.tokenizedCorpus (tokenize q)) topk) with
      | none => rw [hb] at hr; exact absurd hr (by simp)
      | some results =>
        rw [hb] at hr
        obtain ⟨idx, _, c, hc, hrc⟩ :=
          buildResults_mem _ data.chunks _ results r hb hr
        exact ⟨data, rfl, idx, c, hc, hrc⟩

/-- C8: searching session `sid` draws results exclusively from the chunk
snapshot stored in the registry under `sid`; each result is an annotated
copy of such a chunk, its `session_id` field is the stored chunk's
`session_id`, and in particular when every chunk indexed under `sid`
carries `session_id = sid` then so does every search result — whatever
other sessions contain. -/
theorem C8_session_isolation :
    ∀ (scorer : List (List String) → List String → List ℚ)
      (s : BM25State) (sid q : String) (topk : ℕ) (r : Dict),
      r ∈ (searchBM25 scorer s sid q topk).1 →
      ∃ data, aget s sid = some data ∧ ∃ c, c ∈ data.chunks ∧
        (∃ sc, r = annotateBm25 c sc) ∧
        dget r "session_id" = dget c "session_id" ∧
        ((∀ c₀ ∈ data.chunks, dget c₀ "session_id" = some (.str sid)) →
          dget r "session_id" = some (.str sid)) := by
  intro scorer s sid q topk r hr
  obtain ⟨data, ha, idx, c, hc, rfl⟩ := mem_searchBM25_results scorer s sid q topk r hr
  have hmem : c ∈ data.chunks := List.get?_mem hc
  have hsess : dget (annotateBm25 c ((scorer data.tokenizedCorpus (tokenize q)).getD idx 0))
      "session_id" = dget c "session_id" :=
    dget_annotateBm25 c ((scorer data.tokenizedCorpus (tokenize q)).getD idx 0)
      (by decide) (by decide)
  exact ⟨data, ha, c, hmem, ⟨_, rfl⟩, hsess,
    fun hall => hsess.trans (hall c hmem)⟩

/-- C10: `BM25Index.search` is read-only — the registry after a search is
the registry before it — and every returned dict is a fresh copy of a
stored chunk annotated with `bm25_score` and `search_method`, not the
stored dict itself being extended. -/
theorem C10_search_readonly_returns_annotated_copies :
    ∀ (scorer : List (List String) → List String → List ℚ)
      (s : BM25State) (sid q : String) (topk : ℕ),
      (searchBM25 scorer s sid q topk).2 = s ∧
      ∀ r ∈ (searchBM25 scorer s sid q topk).1,
        ∃ data idx c, aget s sid = some data ∧ data.chunks.get? idx = some c ∧
          r = annotateBm25 c ((scorer data.tokenizedCorpus (tokenize q)).getD idx 0) := by
  intro scorer s sid q topk
  constructor
  · unfold searchBM25
    cases ha : aget s sid with
    | none => rfl
    | some data =>
      dsimp only
      by_cases ht : (tokenize q).isEmpty
      · rw [if_pos ht]
      · rw [if_neg ht]
        cases hb : buildResults data.chunks (scorer data.tokenizedCorpus (tokenize q))
            (bm25TopIndices (scorer data.tokenizedCorpus (tokenize q)) topk) with
        | none => rfl
        | some results => rfl
  · intro r hr
    obtain ⟨data, ha, idx, c, hc, hrc⟩ := mem_searchBM25_results scorer s sid q topk r hr
    exact ⟨data, idx, c, ha, hc, hrc⟩

/-- The first result actually returned when searching session A of the
two-session fixture registry for "red cat". -/
def resultA1 : Dict :=
  [("id", .str "a1"), ("text", .str "red cat"), ("session_id", .str "A"),
   ("bm25_score", .rat 2), ("search_method", .str "bm25")]

/-- C8 witness: two sessions with overlapping vocabulary; the concrete
result of searching session A is an annotated copy of a session-A chunk. -/
theorem C8_witness :
    ∃ data, aget stateAB "A" = some data ∧ ∃ c, c ∈ data.chunks ∧
      (∃ sc, resultA1 = annotateBm25 c sc) ∧
      dget resultA1 "session_id" = dget c "session_id" ∧
      ((∀ c₀ ∈ data.chunks, dget c₀ "session_id" = some (.str "A")) →
        dget resultA1 "session_id" = some (.str "A")) :=
  C8_session_isolation scorerCount stateAB "A" "red cat" 5 resultA1 (by decide)

/-- C10 witness: the concrete search leaves the two-session registry
untouched, and its first result is an annotated copy of a stored chunk. -/
theorem C10_witness :
    (searchBM25 scorerCount stateAB "A" "red cat" 5).2 = stateAB ∧
    ∃ data idx c, aget stateAB "A" = some data ∧ data.chunks.get? idx = some c ∧
      resultA1 = annotateBm25 c
        ((scorerCount data.tokenizedCorpus (tokenize "red cat")).getD idx 0) :=
  ⟨(C10_search_readonly_returns_annotated_copies scorerCount stateAB "A" "red cat" 5).1,
   (C10_search_readonly_returns_annotated_copies scorerCount stateAB "A" "red cat" 5).2
     resultA1 (by decide)⟩

/-- Stripping is unaffected by appending trailing whitespace. -/
theorem pyStrip_append_ws (l ws : List Char) (hws : ∀ c ∈ ws, isPySpace c = true) :
    pyStrip (l ++ ws) = pyStrip l := by
  unfold pyStrip
  rw [List.dropWhile_append]
  by_cases h : (l.dropWhile isPySpace).isEmpty
  · rw [if_pos h]
    have hws' : ws.dropWhile isPySpace = [] := List.dropWhile_eq_nil_iff.mpr hws
    have hl : l.dropWhile isPySpace = [] := by simpa [List.isEmpty_iff] using h
    rw [hws', hl]
  · rw [if_neg h, List.reverse_append,
      List.dropWhile_append_of_pos (fun a ha => hws a (List.mem_reverse.mp ha))]

/-- C3 counterexample: with `chunk_size=20`, `chunk_overlap=5`,
`min_chunk_size=10`, the undersized tail "hello" is silently dropped (no
chunk at all is emitted for a non-empty input), and a two-paragraph input
emits a non-final chunk of length 2, far below `min_chunk_size`. -/
theorem C3_counterexample :
    chunkText ⟨20, 5, 10⟩ [] "hello" = [] ∧
    (chunkText ⟨20, 5, 10⟩ [] "aa\n\nxxxxxxxxxxxxxxxxxxx").map (fun c => c.length) =
      [2, 23] := by
  decide

/-- C3 amended: a chunk flushed mid-document may be shorter than
`min_chunk_size`, and the trailing accumulation is emitted only when its
stripped length reaches `min_chunk_size`, otherwise it is silently dropped.
In particular, for a clean single-paragraph text that fits in `chunk_size`,
the output is one chunk exactly when the text reaches `min_chunk_size`, and
empty otherwise. -/
theorem C3_final_chunk_needs_min_size :
    ∀ (cfg : ChunkerCfg) (md : Metadata) (text : String),
      splitParagraphs text = [text] →
      pyStrip text.toList = text.toList →
      text ≠ "" →
      text.length ≤ cfg.chunkSize →
      chunkText cfg md text =
        if cfg.minChunkSize ≤ text.length then
          [⟨text, text.length, 0, Option.none, md⟩]
        else [] := by
  intro cfg md text h1 h0 hne hlen
  have htoList_ne : text.toList ≠ [] := fun h => hne (String.ext h)
  have hguard : ¬(text = "" ∨ (pyStrip text.toList).length = 0) := by
    rintro (h | h)
    · exact hne h
    · rw [h0] at h
      exact htoList_ne (List.length_eq_zero.mp h)
  unfold chunkText
  rw [if_neg hguard]
  dsimp only
  rw [h1]
  have hloop : chunkLoop cfg md [] "" 0 [text] = ([], "" ++ text ++ "\n\n", 0) := by
    rw [chunkLoop]
    rw [if_neg (Nat.not_lt.mpr hlen), if_pos (by simpa using hlen)]
    rfl
  rw [hloop]
  dsimp only
  have hcurList : ("" ++ text ++ "\n\n").toList = text.toList ++ ['\n', '\n'] := by
    show ("" ++ text ++ "\n\n").data = text.data ++ ['\n', '\n']
    simp [String.data_append]
  have hstrip : pyStripS ("" ++ text ++ "\n\n") = text := by
    unfold pyStripS
    rw [show ("" ++ text ++ "\n\n").toList = text.toList ++ ['\n', '\n'] from hcurList]
    rw [pyStrip_append_ws _ _ (by decide), h0]
    rfl
  have hcur_ne : ("" ++ text ++ "\n\n") ≠ "" := by
    intro h
    have hl : ("" ++ text ++ "\n\n").toList = [] := by rw [h]; rfl
    rw [hcurList] at hl
    simp at hl
  unfold chunkFinalize
  by_cases hmin : cfg.minChunkSize ≤ text.length
  · rw [if_pos ⟨hcur_ne, by rw [hstrip]; exact hmin⟩, if_pos hmin, hstrip]
    rfl
  · rw [if_neg (fun hc => hmin (by rw [hstrip] at hc; exact hc.2)), if_neg hmin]

/-- C3 witness: with `min_chunk_size=10`, the clean single-paragraph text
"hello" (length 5) produces no chunk at all. -/
theorem C3_witness :
    chunkText ⟨20, 5, 10⟩ [] "hello" =
      if (10 : ℕ) ≤ "hello".length then
        [⟨"hello", "hello".length, 0, Option.none, []⟩]
      else [] :=
  C3_final_chunk_needs_min_size ⟨20, 5, 10⟩ [] "hello" (by decide) (by decide)
    (by decide) (by decide)

end RagDemo
